import Mathlib

/-!
Verification development for the latency measurement tool (src/main.rs).

The program reads two pcap captures.  Every frame of the outbound capture is
turned into a packet identity and inserted into a hash map from identity to
capture timestamp.  Every frame of the inbound capture is then looked up with
a removing lookup; a found entry is a hit (its latency is the timestamp
difference), a missing entry is a miss, and summary statistics are kept.

The embedding below models machine integers as Nat / Int (with explicit
wrapping where overflow matters), the hash map as an association list with
unique keys, fallible code as Option / Except, and the panic paths of the
program as Except.error.  The external crates pcap-parser and pnet are not
part of the repository: the reader is modelled as the list of legacy data
blocks it yields, and the header parsers are modelled from the spec
(Ethernet, IPv4, TCP, ICMP header layouts with the minimum-length checks the
generated packet views perform).
-/

namespace LatencyTool

/-- Raw frame bytes, one natural number per byte. -/
abbrev Bytes := List Nat

/-- Capture timestamp taken from a pcap record header: the u32 fields ts_sec
and ts_usec, modelled as Nat. -/
structure PacketTime where
  sec : Nat
  usec : Nat
deriving DecidableEq, Repr

/-- Model of PacketTime::diff from src/main.rs line 107: the i64 expression
t1.sec * 1000000 + t1.usec - t2.sec * 1000000 - t2.usec, with the i64
arithmetic modelled as exact integer arithmetic.  diff_i64 below models the
same expression with two-complement wrapping at every operation. -/
def PacketTime.diff (t1 t2 : PacketTime) : Int :=
  (t1.sec : Int) * 1000000 + (t1.usec : Int) - (t2.sec : Int) * 1000000 - (t2.usec : Int)

/-- wrap64 reduces an integer into the i64 range, modelling two-complement
wraparound of a 64-bit machine word. -/
def wrap64 (x : Int) : Int := (x + 2 ^ 63) % 2 ^ 64 - 2 ^ 63

/-- Model of the same difference expression with every i64 operation wrapped,
the release-mode machine semantics of PacketTime::diff. -/
def PacketTime.diff_i64 (t1 t2 : PacketTime) : Int :=
  wrap64 (wrap64 (wrap64 (wrap64 ((t1.sec : Int) * 1000000) + (t1.usec : Int))
    - wrap64 ((t2.sec : Int) * 1000000)) - (t2.usec : Int))

/-- Packet identity from src/main.rs lines 47-62: a tagged variant, either a
TCP identity (source ip, destination ip, source port, destination port,
sequence, acknowledgement) or an ICMP identity (source ip, destination ip,
checksum).  IPv4 addresses and the other header fields are modelled as Nat. -/
inductive PacketId where
  | Tcp (ip_src ip_dst : Nat) (port_src port_dst : Nat) (tcp_seq tcp_ack : Nat)
  | Icmp (ip_src ip_dst : Nat) (checksum : Nat)
deriving DecidableEq, Repr

/-- Big-endian 16-bit field starting at byte offset i. -/
def be16 (b : Bytes) (i : Nat) : Nat := b.getD i 0 * 256 + b.getD (i + 1) 0

/-- Big-endian 32-bit field starting at byte offset i. -/
def be32 (b : Bytes) (i : Nat) : Nat :=
  ((b.getD i 0 * 256 + b.getD (i + 1) 0) * 256 + b.getD (i + 2) 0) * 256 + b.getD (i + 3) 0

/-- Model of the external EthernetPacket view: the frame parses when it holds
at least the 14 fixed header bytes; the payload is everything after them. -/
def ethernetParse (b : Bytes) : Option Bytes :=
  if 14 ≤ b.length then some (b.drop 14) else none

/-- Fields of a parsed IPv4 header used by the program. -/
structure Ipv4Info where
  source : Nat
  destination : Nat
  protocol : Nat
  payload : Bytes
deriving DecidableEq, Repr

/-- Model of the external Ipv4Packet view: the slice parses when it holds at
least the 20 fixed header bytes; source and destination addresses are at
offsets 12 and 16, the protocol field at offset 9, and the payload starts
after the header (the header length is four times the low nibble of the
first byte, never taken shorter than the fixed 20 bytes). -/
def ipv4Parse (b : Bytes) : Option Ipv4Info :=
  if 20 ≤ b.length then
    some { source := be32 b 12
           destination := be32 b 16
           protocol := b.getD 9 0
           payload := b.drop (max (4 * (b.getD 0 0 % 16)) 20) }
  else none

/-- Fields of a parsed TCP header used by the program. -/
structure TcpInfo where
  source : Nat
  destination : Nat
  sequence : Nat
  acknowledgement : Nat
deriving DecidableEq, Repr

/-- Model of the external TcpPacket view: the slice parses when it holds at
least the 20 fixed header bytes; ports are at offsets 0 and 2, the sequence
number at offset 4 and the acknowledgement number at offset 8. -/
def tcpParse (b : Bytes) : Option TcpInfo :=
  if 20 ≤ b.length then
    some { source := be16 b 0
           destination := be16 b 2
           sequence := be32 b 4
           acknowledgement := be32 b 8 }
  else none

/-- Model of the external IcmpPacket view: the slice parses when it holds at
least the 4 fixed header bytes; the checksum field is at offset 2. -/
def icmpParse (b : Bytes) : Option Nat :=
  if 4 ≤ b.length then some (be16 b 2) else none

/-- IP protocol number of TCP. -/
def protocolTcp : Nat := 6

/-- IP protocol number of ICMP. -/
def protocolIcmp : Nat := 1

/-- Result of identity extraction: ok is Some(id), skip is the None return of
new_from_bytes (the record is dropped and processing continues), and abort is
the panic of the unwrap calls on lines 72 and 87 of src/main.rs (protocol
declares TCP or ICMP but the transport header does not parse). -/
inductive ExtractResult where
  | ok (id : PacketId)
  | skip
  | abort
deriving DecidableEq, Repr

/-- Model of PacketId::new_from_bytes from src/main.rs lines 65-97: parse the
Ethernet header (question-mark return on failure), parse an IPv4 header from
its payload (question-mark return on failure), then branch on the protocol
field: TCP and ICMP unwrap their transport parse (panic, modelled as abort)
and build the identity; every other protocol returns None (skip). -/
def PacketId.new_from_bytes (bytes : Bytes) : ExtractResult :=
  match ethernetParse bytes with
  | none => ExtractResult.skip
  | some l2_payload =>
    match ipv4Parse l2_payload with
    | none => ExtractResult.skip
    | some l3 =>
      if l3.protocol = protocolTcp then
        match tcpParse l3.payload with
        | none => ExtractResult.abort
        | some l4 =>
          ExtractResult.ok (PacketId.Tcp l3.source l3.destination
            l4.source l4.destination l4.sequence l4.acknowledgement)
      else if l3.protocol = protocolIcmp then
        match icmpParse l3.payload with
        | none => ExtractResult.abort
        | some checksum => ExtractResult.ok (PacketId.Icmp l3.source l3.destination checksum)
      else ExtractResult.skip

/-- Model of PcapReader::match_filter inner loop from src/main.rs lines
128-137: walk the constraints; an offset at or past the frame length rejects,
a mismatching byte rejects, otherwise continue; an exhausted list accepts. -/
def match_filter_go (bytes : Bytes) : List (Nat × Nat) → Bool
  | [] => true
  | (byte_number, byte_value) :: rest =>
    if bytes.length ≤ byte_number then false
    else if bytes.getD byte_number 0 = byte_value then match_filter_go bytes rest
    else false

/-- Model of PcapReader::match_filter from src/main.rs lines 124-139: an
empty constraint list accepts immediately, otherwise the loop above decides. -/
def PcapReader.match_filter (bytes : Bytes) (filter : List (Nat × Nat)) : Bool :=
  if filter.length = 0 then true
  else match_filter_go bytes filter

/-- One legacy pcap data block as surfaced by the external reader: raw frame
bytes plus the two u32 timestamp fields of the record header. -/
structure CaptureRecord where
  data : Bytes
  ts_sec : Nat
  ts_usec : Nat
deriving DecidableEq, Repr

/-- Panic message standing for the unwrap panic of the identity extractor. -/
def panicMsg : String := "called unwrap on a None value"

/-- Panic message standing for the i64 division-by-zero panic. -/
def divMsg : String := "attempt to divide by zero"

/-- Model of the Iterator::next loop of PcapReader (src/main.rs lines
145-178) run to exhaustion: records failing the byte filter are dropped,
records whose extraction skips are dropped, a record whose extraction aborts
panics the run, and every other record yields its identity paired with its
timestamp.  Legacy header blocks and buffer refills of the external reader
are invisible at this level of abstraction. -/
def readPackets (filter : List (Nat × Nat)) : List CaptureRecord → Except String (List (PacketId × PacketTime))
  | [] => Except.ok []
  | r :: rest =>
    if PcapReader.match_filter r.data filter then
      match PacketId.new_from_bytes r.data with
      | ExtractResult.ok id =>
        match readPackets filter rest with
        | Except.ok pairs => Except.ok ((id, ⟨r.ts_sec, r.ts_usec⟩) :: pairs)
        | Except.error e => Except.error e
      | ExtractResult.skip => readPackets filter rest
      | ExtractResult.abort => Except.error panicMsg
    else readPackets filter rest

/-- The correlation table: a map from identity to timestamp, modelled as an
association list whose keys stay unique under tableInsert. -/
abbrev Table := List (PacketId × PacketTime)

/-- Lookup of a key in the table. -/
def tableFind : Table → PacketId → Option PacketTime
  | [], _ => none
  | (k2, v) :: rest, k => if k2 = k then some v else tableFind rest k

/-- Removal of every entry of a key from the table. -/
def tableErase : Table → PacketId → Table
  | [], _ => []
  | (k2, v) :: rest, k => if k2 = k then tableErase rest k else (k2, v) :: tableErase rest k

/-- Model of HashMap::remove: return the stored value (if any) and the table
without that entry. -/
def tableRemove (t : Table) (k : PacketId) : Option PacketTime × Table :=
  match tableFind t k with
  | some v => (some v, tableErase t k)
  | none => (none, t)

/-- Model of HashMap::insert: the new binding replaces any existing binding
of the same key (last write wins). -/
def tableInsert (t : Table) (k : PacketId) (v : PacketTime) : Table :=
  (k, v) :: tableErase t k

/-- Number of entries of a key in the table. -/
def tableCountKey (t : Table) (k : PacketId) : Nat :=
  t.countP (fun p => decide (p.1 = k))

/-- Model of the outbound loop of main (src/main.rs lines 195-197): insert
every outbound pair into the table. -/
def buildTable (pairs : List (PacketId × PacketTime)) : Table :=
  pairs.foldl (fun t p => tableInsert t p.1 p.2) []

/-- The running statistics of main (src/main.rs lines 201-206): latency_sum,
latency_min and latency_max and latency_hit_count are i64 (modelled as Int),
miss_count and in_interface_packet_count are u64 (modelled as Nat). -/
structure Stats where
  latency_sum : Int
  latency_min : Int
  latency_max : Int
  latency_hit_count : Int
  miss_count : Nat
  in_interface_packet_count : Nat
deriving DecidableEq, Repr

/-- Initial statistics: sums and counts zero, latency_min the i64 maximum. -/
def initStats : Stats :=
  { latency_sum := 0
    latency_min := 9223372036854775807
    latency_max := 0
    latency_hit_count := 0
    miss_count := 0
    in_interface_packet_count := 0 }

/-- What the loop body prints for one inbound record: a latency line on a
hit, the word miss on a miss. -/
inductive Outcome where
  | hit (latency : Int)
  | miss
deriving DecidableEq, Repr

/-- Recognizer of the hit outcome. -/
def Outcome.isHit : Outcome → Bool
  | Outcome.hit _ => true
  | Outcome.miss => false

/-- Model of one iteration of the inbound loop of main (src/main.rs lines
207-228): count the record, remove its identity from the table; on a hit
compute the latency, add its absolute value to the sum, count the hit, and
update min and max by comparing the absolute value against the running bound
while storing the signed latency; on a miss count the miss. -/
def stepRecord (table : Table) (stats : Stats) (rec : PacketId × PacketTime) :
    Table × Stats × Outcome :=
  let stats1 := { stats with in_interface_packet_count := stats.in_interface_packet_count + 1 }
  match tableRemove table rec.1 with
  | (some out_interface_time, table1) =>
    let latency := PacketTime.diff out_interface_time rec.2
    (table1,
     { stats1 with
        latency_sum := stats1.latency_sum + |latency|
        latency_hit_count := stats1.latency_hit_count + 1
        latency_min := if |latency| < stats1.latency_min then latency else stats1.latency_min
        latency_max := if |latency| > stats1.latency_max then latency else stats1.latency_max },
     Outcome.hit latency)
  | (none, table1) =>
    (table1, { stats1 with miss_count := stats1.miss_count + 1 }, Outcome.miss)

/-- The inbound loop of main run over a list of inbound pairs, returning the
final table, the final statistics and the per-record outcome trace. -/
def runInbound : Table → Stats → List (PacketId × PacketTime) → Table × Stats × List Outcome
  | table, stats, [] => (table, stats, [])
  | table, stats, rec :: rest =>
    let s := stepRecord table stats rec
    let r := runInbound s.1 s.2.1 rest
    (r.1, r.2.1, s.2.2 :: r.2.2)

/-- Model of i64 division: dividing by zero panics (modelled as an error),
otherwise the quotient truncates toward zero as in Rust. -/
def i64_div (a b : Int) : Except String Int :=
  if b = 0 then Except.error divMsg else Except.ok (Int.tdiv a b)

/-- The summary values printed by main (src/main.rs lines 229-236), without
the floating-point miss percentage of the excluded presentation layer. -/
structure Summary where
  average_latency : Int
  jitter : Int
  packets_count : Nat
  misses_count : Nat
deriving DecidableEq, Repr

/-- Model of the final summary computation of main: average latency is
latency_sum divided by latency_hit_count (an i64 division, so a panic when
the hit count is zero), jitter is latency_max minus latency_min. -/
def finalize (s : Stats) : Except String Summary :=
  match i64_div s.latency_sum s.latency_hit_count with
  | Except.error e => Except.error e
  | Except.ok avg =>
    Except.ok { average_latency := avg
                jitter := s.latency_max - s.latency_min
                packets_count := s.in_interface_packet_count
                misses_count := s.miss_count }

/-- Model of main (src/main.rs lines 181-237) up to the summary: read the
outbound capture into the table, then run the inbound loop; a panic in
either reader aborts the run. -/
def runMain (filter : List (Nat × Nat)) (out_records in_records : List CaptureRecord) :
    Except String (Table × Stats × List Outcome) :=
  match readPackets filter out_records with
  | Except.error e => Except.error e
  | Except.ok out_pairs =>
    match readPackets filter in_records with
    | Except.error e => Except.error e
    | Except.ok in_pairs => Except.ok (runInbound (buildTable out_pairs) initStats in_pairs)

/-- Concrete well-formed ICMP frame for witnesses: Ethernet header (14
bytes), IPv4 header with protocol 1 (20 bytes), ICMP header with the given
checksum bytes (4 bytes). -/
def icmpFrameBytes (ckHi ckLo : Nat) : Bytes :=
  [0, 0, 0, 0, 0, 0, 0, 0, 0, 0, 0, 0, 8, 0] ++
  [69, 0, 0, 28, 0, 0, 0, 0, 64, 1, 0, 0, 10, 0, 0, 1, 10, 0, 0, 2] ++
  [8, 0, ckHi, ckLo]

/-- Concrete frame whose IPv4 header declares TCP but whose IPv4 payload is
empty, so the TCP header cannot parse. -/
def tcpTruncatedFrameBytes : Bytes :=
  [0, 0, 0, 0, 0, 0, 0, 0, 0, 0, 0, 0, 8, 0] ++
  [69, 0, 0, 20, 0, 0, 0, 0, 64, 6, 0, 0, 10, 0, 0, 1, 10, 0, 0, 2]

/-- Concrete frame whose IPv4 header declares UDP (protocol 17), outside the
supported protocol set. -/
def udpFrameBytes : Bytes :=
  [0, 0, 0, 0, 0, 0, 0, 0, 0, 0, 0, 0, 8, 0] ++
  [69, 0, 0, 20, 0, 0, 0, 0, 64, 17, 0, 0, 10, 0, 0, 1, 10, 0, 0, 2]

/-- Capture with the same ICMP frame recorded twice at different times. -/
def dupCapture : List CaptureRecord :=
  [⟨icmpFrameBytes 0 0, 0, 0⟩, ⟨icmpFrameBytes 0 0, 0, 1⟩]

/-- Capture with two ICMP frames carrying distinct identities. -/
def selfCapture : List CaptureRecord :=
  [⟨icmpFrameBytes 0 1, 0, 0⟩, ⟨icmpFrameBytes 0 2, 0, 5⟩]

/-!
Helper lemmas about the embedded definitions.
-/

/-- wrap64 is the identity on values already inside the i64 range. -/
lemma wrap64_eq_self (x : Int) (h1 : -(2 ^ 63) ≤ x) (h2 : x < 2 ^ 63) : wrap64 x = x := by
  unfold wrap64
  have h3 : (0 : Int) ≤ x + 2 ^ 63 := by omega
  have h4 : x + 2 ^ 63 < 2 ^ 64 := by omega
  rw [Int.emod_eq_of_lt h3 h4]
  omega

/-- diff of a timestamp with itself is zero. -/
lemma diff_self (t : PacketTime) : PacketTime.diff t t = 0 := by
  unfold PacketTime.diff; ring

/-- Characterization of the filter loop: it accepts exactly when every
constraint names an offset inside the frame holding the expected byte. -/
lemma match_filter_go_iff (bytes : Bytes) (l : List (Nat × Nat)) :
    match_filter_go bytes l = true ↔ ∀ p ∈ l, p.1 < bytes.length ∧ bytes.getD p.1 0 = p.2 := by
  induction l with
  | nil => simp [match_filter_go]
  | cons a rest ih =>
    obtain ⟨n, v⟩ := a
    by_cases h1 : bytes.length ≤ n
    · simp only [match_filter_go, if_pos h1]
      constructor
      · intro h; simp at h
      · intro h
        have := (h (n, v) (List.mem_cons_self _ _)).1
        omega
    · by_cases h2 : bytes.getD n 0 = v
      · simp only [match_filter_go, if_neg h1, if_pos h2, ih]
        constructor
        · intro h p hp
          rcases List.mem_cons.mp hp with rfl | hp2
          · exact ⟨by omega, h2⟩
          · exact h p hp2
        · intro h p hp
          exact h p (List.mem_cons_of_mem _ hp)
      · simp only [match_filter_go, if_neg h1, if_neg h2]
        constructor
        · intro h; simp at h
        · intro h
          exact absurd (h (n, v) (List.mem_cons_self _ _)).2 h2

/-- Every value strictly below the running maximum of a list of naturals is
exceeded by some element of the list. -/
lemma exists_gt_of_lt_foldr_max (l : List Nat) (k : Nat) (h : k < l.foldr max 0) :
    ∃ n ∈ l, k < n := by
  induction l with
  | nil => simp at h
  | cons a rest ih =>
    simp only [List.foldr_cons] at h
    rcases lt_max_iff.mp h with h2 | h2
    · exact ⟨a, List.mem_cons_self _ _, h2⟩
    · obtain ⟨n, hn, hk⟩ := ih h2
      exact ⟨n, List.mem_cons_of_mem _ hn, hk⟩

/-- Unfolding of the key count over a table cons cell. -/
lemma tableCountKey_cons (k2 : PacketId) (v : PacketTime) (rest : Table) (k : PacketId) :
    tableCountKey ((k2, v) :: rest) k = tableCountKey rest k + if k2 = k then 1 else 0 := by
  simp [tableCountKey, List.countP_cons]

/-- Lookup fails exactly when the table holds no entry for the key. -/
lemma tableFind_eq_none_iff (t : Table) (k : PacketId) :
    tableFind t k = none ↔ tableCountKey t k = 0 := by
  induction t with
  | nil => simp [tableFind, tableCountKey]
  | cons p rest ih =>
    obtain ⟨k2, v⟩ := p
    by_cases hk : k2 = k
    · simp [tableFind, tableCountKey_cons, hk]
    · simp [tableFind, tableCountKey_cons, hk, ih]

/-- Erasing a key leaves no entry for it. -/
lemma tableCountKey_erase_self (t : Table) (k : PacketId) :
    tableCountKey (tableErase t k) k = 0 := by
  induction t with
  | nil => simp [tableErase, tableCountKey]
  | cons p rest ih =>
    obtain ⟨k2, v⟩ := p
    by_cases hk : k2 = k
    · simp [tableErase, hk, ih]
    · simp [tableErase, hk, tableCountKey_cons, ih]

/-- Erasing one key leaves the count of every other key unchanged. -/
lemma tableCountKey_erase_ne (t : Table) (k id : PacketId) (h : id ≠ k) :
    tableCountKey (tableErase t id) k = tableCountKey t k := by
  induction t with
  | nil => simp [tableErase]
  | cons p rest ih =>
    obtain ⟨k2, v⟩ := p
    by_cases hk : k2 = id
    · simp [tableErase, hk, ih, tableCountKey_cons, h]
    · simp [tableErase, hk, tableCountKey_cons, ih]

/-- Erasing one key leaves lookups of every other key unchanged. -/
lemma tableFind_erase_ne (t : Table) (k id : PacketId) (h : k ≠ id) :
    tableFind (tableErase t id) k = tableFind t k := by
  induction t with
  | nil => simp [tableErase]
  | cons p rest ih =>
    obtain ⟨k2, v⟩ := p
    by_cases hk : k2 = id
    · have hne : ¬ id = k := fun he => h he.symm
      simp [tableErase, tableFind, hk, hne, ih]
    · by_cases hk2 : k2 = k
      · simp [tableErase, tableFind, hk, hk2, h]
      · simp [tableErase, tableFind, hk, hk2, ih]

/-- Lookup of a freshly inserted key returns the inserted value. -/
lemma tableFind_insert_self (t : Table) (k : PacketId) (v : PacketTime) :
    tableFind (tableInsert t k v) k = some v := by
  simp [tableInsert, tableFind]

/-- Insertion of one key leaves lookups of every other key unchanged. -/
lemma tableFind_insert_ne (t : Table) (k k2 : PacketId) (v : PacketTime) (h : k2 ≠ k) :
    tableFind (tableInsert t k v) k2 = tableFind t k2 := by
  have hne : ¬ k = k2 := fun he => h he.symm
  simp only [tableInsert, tableFind, if_neg hne]
  exact tableFind_erase_ne t k2 k h

/-- Folding inserts over pairs whose keys avoid k leaves lookups of k
unchanged. -/
lemma buildTable_go_preserve (l : List (PacketId × PacketTime)) :
    ∀ (t0 : Table) (k : PacketId), k ∉ l.map Prod.fst →
      tableFind (l.foldl (fun t p => tableInsert t p.1 p.2) t0) k = tableFind t0 k := by
  induction l with
  | nil => intro t0 k _; rfl
  | cons p rest ih =>
    intro t0 k h
    simp only [List.map_cons, List.mem_cons] at h
    push_neg at h
    rw [List.foldl_cons, ih _ _ h.2]
    exact tableFind_insert_ne t0 p.1 k p.2 h.1

/-- With pairwise distinct keys, the built table maps every pair to its own
timestamp. -/
lemma buildTable_go_find_self (pairs : List (PacketId × PacketTime)) :
    ∀ (t0 : Table), (pairs.map Prod.fst).Nodup →
      ∀ p ∈ pairs, tableFind (pairs.foldl (fun t q => tableInsert t q.1 q.2) t0) p.1 = some p.2 := by
  induction pairs with
  | nil => intro t0 _ p hp; exact absurd hp (List.not_mem_nil p)
  | cons q rest ih =>
    intro t0 hnd p hp
    simp only [List.map_cons, List.nodup_cons] at hnd
    rw [List.foldl_cons]
    rcases List.mem_cons.mp hp with rfl | hmem
    · rw [buildTable_go_preserve rest _ _ hnd.1]
      exact tableFind_insert_self t0 p.1 p.2
    · exact ih (tableInsert t0 q.1 q.2) hnd.2 p hmem

/-- Shape of a loop iteration on a miss: the table is unchanged, the miss
and total counters advance, and the outcome is miss. -/
lemma stepRecord_eq_miss (table : Table) (stats : Stats) (id : PacketId) (t : PacketTime)
    (h : tableFind table id = none) :
    stepRecord table stats (id, t) = (table,
      { stats with miss_count := stats.miss_count + 1,
                   in_interface_packet_count := stats.in_interface_packet_count + 1 },
      Outcome.miss) := by
  simp [stepRecord, tableRemove, h]

/-- Shape of a loop iteration on a hit: the entry is erased, the hit
counters and bounds advance, and the outcome carries the latency. -/
lemma stepRecord_eq_hit (table : Table) (stats : Stats) (id : PacketId) (t v : PacketTime)
    (h : tableFind table id = some v) :
    stepRecord table stats (id, t) = (tableErase table id,
      { stats with
          latency_sum := stats.latency_sum + |PacketTime.diff v t|,
          latency_hit_count := stats.latency_hit_count + 1,
          latency_min := if |PacketTime.diff v t| < stats.latency_min then PacketTime.diff v t
            else stats.latency_min,
          latency_max := if |PacketTime.diff v t| > stats.latency_max then PacketTime.diff v t
            else stats.latency_max,
          in_interface_packet_count := stats.in_interface_packet_count + 1 },
      Outcome.hit (PacketTime.diff v t)) := by
  simp [stepRecord, tableRemove, h]

/-- One loop iteration preserves the counting invariant. -/
lemma stepRecord_count_invariant (table : Table) (stats : Stats) (rec : PacketId × PacketTime)
    (h : (stats.miss_count : Int) + stats.latency_hit_count
      = (stats.in_interface_packet_count : Int)) :
    ((stepRecord table stats rec).2.1.miss_count : Int)
        + (stepRecord table stats rec).2.1.latency_hit_count
      = ((stepRecord table stats rec).2.1.in_interface_packet_count : Int) := by
  cases hfind : tableFind table rec.1 with
  | none =>
    simp only [stepRecord, tableRemove, hfind]
    push_cast
    omega
  | some v =>
    simp only [stepRecord, tableRemove, hfind]
    push_cast
    omega

/-- The whole inbound loop preserves the counting invariant. -/
lemma runInbound_count_invariant (l : List (PacketId × PacketTime)) :
    ∀ (table : Table) (stats : Stats),
      (stats.miss_count : Int) + stats.latency_hit_count
          = (stats.in_interface_packet_count : Int) →
      (((runInbound table stats l).2.1.miss_count : Int)
          + (runInbound table stats l).2.1.latency_hit_count
        = ((runInbound table stats l).2.1.in_interface_packet_count : Int)) := by
  induction l with
  | nil => intro table stats h; simpa [runInbound] using h
  | cons rec rest ih =>
    intro table stats h
    simp only [runInbound]
    exact ih _ _ (stepRecord_count_invariant table stats rec h)

/-- When the table maps every inbound pair to its own timestamp and the keys
are pairwise distinct, the run produces no miss and only zero-latency hits. -/
lemma runInbound_self_hits (l : List (PacketId × PacketTime)) :
    ∀ (table : Table) (stats : Stats),
      (∀ p ∈ l, tableFind table p.1 = some p.2) →
      (l.map Prod.fst).Nodup →
      ((runInbound table stats l).2.1.miss_count = stats.miss_count ∧
       ∀ o ∈ (runInbound table stats l).2.2, o = Outcome.hit 0) := by
  induction l with
  | nil => intro table stats _ _; simp [runInbound]
  | cons rec rest ih =>
    intro table stats hfind hnd
    obtain ⟨id, t⟩ := rec
    simp only [List.map_cons, List.nodup_cons] at hnd
    have hf : tableFind table id = some t := hfind (id, t) (List.mem_cons_self _ _)
    have hrest : ∀ p ∈ rest, tableFind (tableErase table id) p.1 = some p.2 := by
      intro p hp
      have hne : p.1 ≠ id := by
        intro he
        exact hnd.1 (he ▸ List.mem_map_of_mem Prod.fst hp)
      rw [tableFind_erase_ne table p.1 id hne]
      exact hfind p (List.mem_cons_of_mem _ hp)
    simp only [runInbound, stepRecord, tableRemove, hf]
    constructor
    · exact (ih (tableErase table id) _ hrest hnd.2).1
    · intro o ho
      rcases List.mem_cons.mp ho with rfl | ho2
      · rw [diff_self]
      · exact (ih (tableErase table id) _ hrest hnd.2).2 o ho2

/-- How many of the inbound records carrying a fixed identity K are hits and
how many are misses: at most one hit, and one exactly when the table holds an
entry for K and at least one K record arrives; all other K records miss. -/
lemma runInbound_key_count (K : PacketId) (l : List (PacketId × PacketTime)) :
    ∀ (table : Table) (stats : Stats),
      ((l.zip (runInbound table stats l).2.2).countP
          (fun p => decide (p.1.1 = K) && p.2.isHit)
        = if tableCountKey table K = 0 then 0
          else if l.countP (fun p => decide (p.1 = K)) = 0 then 0 else 1) ∧
      ((l.zip (runInbound table stats l).2.2).countP
          (fun p => decide (p.1.1 = K) && !p.2.isHit)
        = l.countP (fun p => decide (p.1 = K))
          - (if tableCountKey table K = 0 then 0
             else if l.countP (fun p => decide (p.1 = K)) = 0 then 0 else 1)) := by
  induction l with
  | nil => intro table stats; simp [runInbound]
  | cons rec rest ih =>
    intro table stats
    obtain ⟨id, t⟩ := rec
    cases hfind : tableFind table id with
    | none =>
      have hstep := stepRecord_eq_miss table stats id t hfind
      have hc : tableCountKey table id = 0 := (tableFind_eq_none_iff table id).mp hfind
      simp only [runInbound, hstep, List.zip_cons_cons, List.countP_cons]
      rw [(ih table _).1, (ih table _).2]
      by_cases hid : id = K
      · subst hid
        simp only [Outcome.isHit, hc, decide_True, Bool.true_and, Bool.and_false,
          Bool.not_false, Bool.and_true, if_pos rfl]
        simp
      · have hdec : (decide (id = K)) = false := decide_eq_false hid
        simp only [Outcome.isHit]
        rw [hdec]
        simp
    | some v =>
      have hstep := stepRecord_eq_hit table stats id t v hfind
      simp only [runInbound, hstep, List.zip_cons_cons, List.countP_cons]
      rw [(ih (tableErase table id) _).1, (ih (tableErase table id) _).2]
      by_cases hid : id = K
      · subst hid
        have hc : ¬ tableCountKey table id = 0 := by
          intro h0
          simp [(tableFind_eq_none_iff table id).mpr h0] at hfind
        rw [tableCountKey_erase_self]
        simp only [Outcome.isHit]
        simp [hc]
      · rw [tableCountKey_erase_ne table K id hid]
        have hdec : (decide (id = K)) = false := decide_eq_false hid
        simp only [Outcome.isHit]
        rw [hdec]
        simp

/-!
Claim theorems.
-/

/-- C1: at-most-once correlation: when the Correlation Table holds exactly
one entry for an identity K and the inbound stream holds exactly two records
with identity K, the run classifies exactly one of those two records as a hit
and exactly one as a miss; moreover a removing lookup that returns a value
leaves no entry for the key in the table. -/
theorem c1_at_most_once (K : PacketId) (table : Table) (l : List (PacketId × PacketTime))
    (h1 : tableCountKey table K = 1)
    (h2 : l.countP (fun p => decide (p.1 = K)) = 2) :
    ((l.zip (runInbound table initStats l).2.2).countP
        (fun p => decide (p.1.1 = K) && p.2.isHit) = 1) ∧
    ((l.zip (runInbound table initStats l).2.2).countP
        (fun p => decide (p.1.1 = K) && !p.2.isHit) = 1) ∧
    (∀ (t : Table) (k : PacketId) (v : PacketTime),
        (tableRemove t k).1 = some v → tableCountKey (tableRemove t k).2 k = 0) := by
  have h := runInbound_key_count K l table initStats
  have hc : ¬ tableCountKey table K = 0 := by omega
  refine ⟨?_, ?_, ?_⟩
  · rw [h.1, if_neg hc, h2]
    decide
  · rw [h.2, if_neg hc, h2]
    decide
  · intro t k v hr
    cases hfind : tableFind t k with
    | none => simp [tableRemove, hfind] at hr
    | some w =>
      simp only [tableRemove, hfind]
      exact tableCountKey_erase_self t k

/-- Witness for C1: a table with one entry for an ICMP identity and an
inbound stream with two records of that identity give one hit and one miss. -/
theorem c1_at_most_once_witness :
    (([((PacketId.Icmp 1 2 3 : PacketId), (⟨0, 0⟩ : PacketTime)),
       (PacketId.Icmp 1 2 3, ⟨0, 1⟩)].zip
        (runInbound [(PacketId.Icmp 1 2 3, ⟨0, 0⟩)] initStats
          [(PacketId.Icmp 1 2 3, ⟨0, 0⟩), (PacketId.Icmp 1 2 3, ⟨0, 1⟩)]).2.2).countP
      (fun p => decide (p.1.1 = PacketId.Icmp 1 2 3) && p.2.isHit) = 1) ∧
    (([((PacketId.Icmp 1 2 3 : PacketId), (⟨0, 0⟩ : PacketTime)),
       (PacketId.Icmp 1 2 3, ⟨0, 1⟩)].zip
        (runInbound [(PacketId.Icmp 1 2 3, ⟨0, 0⟩)] initStats
          [(PacketId.Icmp 1 2 3, ⟨0, 0⟩), (PacketId.Icmp 1 2 3, ⟨0, 1⟩)]).2.2).countP
      (fun p => decide (p.1.1 = PacketId.Icmp 1 2 3) && !p.2.isHit) = 1) ∧
    (∀ (t : Table) (k : PacketId) (v : PacketTime),
        (tableRemove t k).1 = some v → tableCountKey (tableRemove t k).2 k = 0) :=
  c1_at_most_once (PacketId.Icmp 1 2 3) [(PacketId.Icmp 1 2 3, ⟨0, 0⟩)]
    [(PacketId.Icmp 1 2 3, ⟨0, 0⟩), (PacketId.Icmp 1 2 3, ⟨0, 1⟩)] (by decide) (by decide)

/-- C2: count invariant: every loop iteration increments the total inbound
count by one and classifies its record as exactly one of miss (miss counter
advances, hit counter unchanged) or hit (hit counter advances, miss counter
unchanged), one iteration preserves miss_count + hit_count =
total_inbound_count, and the invariant holds after running the loop from the
initial statistics on any record list, hence at every point of every run. -/
theorem c2_count_invariant :
    (∀ (table : Table) (stats : Stats) (rec : PacketId × PacketTime),
        (stepRecord table stats rec).2.1.in_interface_packet_count
            = stats.in_interface_packet_count + 1 ∧
        (((stepRecord table stats rec).2.2 = Outcome.miss ∧
            (stepRecord table stats rec).2.1.miss_count = stats.miss_count + 1 ∧
            (stepRecord table stats rec).2.1.latency_hit_count = stats.latency_hit_count) ∨
         ((∃ lat, (stepRecord table stats rec).2.2 = Outcome.hit lat) ∧
            (stepRecord table stats rec).2.1.miss_count = stats.miss_count ∧
            (stepRecord table stats rec).2.1.latency_hit_count = stats.latency_hit_count + 1)) ∧
        ((stats.miss_count : Int) + stats.latency_hit_count
              = (stats.in_interface_packet_count : Int) →
          ((stepRecord table stats rec).2.1.miss_count : Int)
              + (stepRecord table stats rec).2.1.latency_hit_count
            = ((stepRecord table stats rec).2.1.in_interface_packet_count : Int))) ∧
    (∀ (table : Table) (l : List (PacketId × PacketTime)),
        (((runInbound table initStats l).2.1.miss_count : Int)
            + (runInbound table initStats l).2.1.latency_hit_count
          = ((runInbound table initStats l).2.1.in_interface_packet_count : Int))) := by
  constructor
  · intro table stats rec
    obtain ⟨id, t⟩ := rec
    cases hfind : tableFind table id with
    | none =>
      rw [stepRecord_eq_miss table stats id t hfind]
      refine ⟨rfl, Or.inl ⟨rfl, rfl, rfl⟩, ?_⟩
      intro h
      push_cast
      omega
    | some v =>
      rw [stepRecord_eq_hit table stats id t v hfind]
      refine ⟨rfl, Or.inr ⟨⟨PacketTime.diff v t, rfl⟩, rfl, rfl⟩, ?_⟩
      intro h
      push_cast
      omega
  · intro table l
    exact runInbound_count_invariant l table initStats (by decide)

/-- Witness for C2: one concrete iteration increments the total count and
preserves the counting invariant. -/
theorem c2_count_invariant_witness :
    (stepRecord [] initStats (PacketId.Icmp 1 2 3, ⟨0, 0⟩)).2.1.in_interface_packet_count
        = initStats.in_interface_packet_count + 1 ∧
    (((stepRecord [] initStats (PacketId.Icmp 1 2 3, ⟨0, 0⟩)).2.1.miss_count : Int)
        + (stepRecord [] initStats (PacketId.Icmp 1 2 3, ⟨0, 0⟩)).2.1.latency_hit_count
      = ((stepRecord [] initStats (PacketId.Icmp 1 2 3, ⟨0, 0⟩)).2.1.in_interface_packet_count :
          Int)) := by
  have h := c2_count_invariant.1 [] initStats (PacketId.Icmp 1 2 3, ⟨0, 0⟩)
  exact ⟨h.1, h.2.2 (by decide)⟩

/-- C3 counterexample: the same capture, one ICMP frame recorded twice, used
byte-for-byte as both outbound and inbound, yields the outcome trace
[hit 1, miss]: the second inbound packet has a recognized identity yet is a
miss, the first hit has latency 1 rather than 0, and miss_count is 1 rather
than 0, so the claim fails as stated (last-write-wins insertion plus
remove-on-lookup strand the duplicate). -/
theorem c3_counterexample :
    PacketId.new_from_bytes (icmpFrameBytes 0 0)
        = ExtractResult.ok (PacketId.Icmp 167772161 167772162 0) ∧
    (runMain [] dupCapture dupCapture).map (fun r => (r.2.1.miss_count, r.2.2))
        = Except.ok (1, [Outcome.hit 1, Outcome.miss]) :=
  ⟨rfl, rfl⟩

/-- C3 amended: for two byte-for-byte identical captures whose accepted
records carry pairwise distinct identities, every inbound record is a hit
with latency 0 and the final miss count is 0. -/
theorem c3_identical_captures (filter : List (Nat × Nat)) (cap : List CaptureRecord)
    (pairs : List (PacketId × PacketTime))
    (hp : readPackets filter cap = Except.ok pairs)
    (hnd : (pairs.map Prod.fst).Nodup) :
    runMain filter cap cap = Except.ok (runInbound (buildTable pairs) initStats pairs) ∧
    (runInbound (buildTable pairs) initStats pairs).2.1.miss_count = 0 ∧
    ∀ o ∈ (runInbound (buildTable pairs) initStats pairs).2.2, o = Outcome.hit 0 := by
  have hfind : ∀ p ∈ pairs, tableFind (buildTable pairs) p.1 = some p.2 := by
    unfold buildTable
    exact buildTable_go_find_self pairs [] hnd
  have hrun := runInbound_self_hits pairs (buildTable pairs) initStats hfind hnd
  refine ⟨?_, hrun.1, hrun.2⟩
  unfold runMain
  rw [hp]

/-- Witness for the amended C3: a capture of two ICMP frames with distinct
checksums, used as both sides, gives zero misses and only zero-latency hits. -/
theorem c3_identical_captures_witness :
    runMain [] selfCapture selfCapture =
      Except.ok (runInbound (buildTable
          [(PacketId.Icmp 167772161 167772162 1, ⟨0, 0⟩),
           (PacketId.Icmp 167772161 167772162 2, ⟨0, 5⟩)])
        initStats
        [(PacketId.Icmp 167772161 167772162 1, ⟨0, 0⟩),
         (PacketId.Icmp 167772161 167772162 2, ⟨0, 5⟩)]) ∧
    (runInbound (buildTable
          [(PacketId.Icmp 167772161 167772162 1, ⟨0, 0⟩),
           (PacketId.Icmp 167772161 167772162 2, ⟨0, 5⟩)])
        initStats
        [(PacketId.Icmp 167772161 167772162 1, ⟨0, 0⟩),
         (PacketId.Icmp 167772161 167772162 2, ⟨0, 5⟩)]).2.1.miss_count = 0 ∧
    ∀ o ∈ (runInbound (buildTable
          [(PacketId.Icmp 167772161 167772162 1, ⟨0, 0⟩),
           (PacketId.Icmp 167772161 167772162 2, ⟨0, 5⟩)])
        initStats
        [(PacketId.Icmp 167772161 167772162 1, ⟨0, 0⟩),
         (PacketId.Icmp 167772161 167772162 2, ⟨0, 5⟩)]).2.2, o = Outcome.hit 0 :=
  c3_identical_captures [] selfCapture
    [(PacketId.Icmp 167772161 167772162 1, ⟨0, 0⟩),
     (PacketId.Icmp 167772161 167772162 2, ⟨0, 5⟩)]
    rfl (by decide)

/-- C4: latency formula and sign convention: the signed latency is
(sec1 * 1000000 + usec1) - (sec2 * 1000000 + usec2); for the outbound
timestamp (10, 500000) and inbound timestamp (10, 0) it is 500000; and in the
inbound loop a matched pair produces the hit latency diff out_time in_time
with the outbound timestamp as minuend. -/
theorem c4_latency_formula :
    (∀ t1 t2 : PacketTime, PacketTime.diff t1 t2 =
        ((t1.sec : Int) * 1000000 + (t1.usec : Int))
          - ((t2.sec : Int) * 1000000 + (t2.usec : Int))) ∧
    PacketTime.diff ⟨10, 500000⟩ ⟨10, 0⟩ = 500000 ∧
    (∀ (table : Table) (stats : Stats) (id : PacketId) (t out_time : PacketTime),
        tableFind table id = some out_time →
        (stepRecord table stats (id, t)).2.2 = Outcome.hit (PacketTime.diff out_time t)) := by
  refine ⟨?_, by decide, ?_⟩
  · intro t1 t2; unfold PacketTime.diff; ring
  · intro table stats id t out_time h
    simp [stepRecord, tableRemove, h]

/-- Witness for C4: one concrete hit carries the latency with the outbound
timestamp as minuend. -/
theorem c4_latency_formula_witness :
    (stepRecord [(PacketId.Icmp 0 0 0, ⟨10, 500000⟩)] initStats
        (PacketId.Icmp 0 0 0, ⟨10, 0⟩)).2.2
      = Outcome.hit (PacketTime.diff ⟨10, 500000⟩ ⟨10, 0⟩) :=
  c4_latency_formula.2.2 [(PacketId.Icmp 0 0 0, ⟨10, 500000⟩)] initStats
    (PacketId.Icmp 0 0 0) ⟨10, 0⟩ ⟨10, 500000⟩ (by decide)

/-- C5: division-by-zero on zero hits: when the run finishes with
latency_hit_count = 0, the summary computation is the defined, reported
division-by-zero failure (the Rust i64 division panic), not undefined
behavior or a silent wrong value. -/
theorem c5_div_by_zero_guard (s : Stats) (h : s.latency_hit_count = 0) :
    finalize s = Except.error divMsg := by
  simp [finalize, i64_div, h]

/-- Witness for C5: finalizing the initial statistics (zero hits) reports the
division-by-zero failure. -/
theorem c5_div_by_zero_guard_witness : finalize initStats = Except.error divMsg :=
  c5_div_by_zero_guard initStats rfl

/-- C6: min and max update rule: on a hit the running bounds are compared
against the absolute value of the latency, but the signed latency itself is
stored when the comparison succeeds. -/
theorem c6_minmax_update (table : Table) (stats : Stats) (id : PacketId) (t out_time : PacketTime)
    (h : tableFind table id = some out_time) :
    (stepRecord table stats (id, t)).2.1.latency_min =
      (if |PacketTime.diff out_time t| < stats.latency_min then PacketTime.diff out_time t
       else stats.latency_min) ∧
    (stepRecord table stats (id, t)).2.1.latency_max =
      (if |PacketTime.diff out_time t| > stats.latency_max then PacketTime.diff out_time t
       else stats.latency_max) := by
  simp [stepRecord, tableRemove, h]

/-- Witness for C6: a hit with latency -10000000 passes both absolute-value
comparisons and the stored bounds are the signed value, leaving max below
min. -/
theorem c6_minmax_update_witness :
    (stepRecord [(PacketId.Icmp 1 2 3, ⟨0, 0⟩)] initStats
        (PacketId.Icmp 1 2 3, ⟨10, 0⟩)).2.1.latency_min = -10000000 ∧
    (stepRecord [(PacketId.Icmp 1 2 3, ⟨0, 0⟩)] initStats
        (PacketId.Icmp 1 2 3, ⟨10, 0⟩)).2.1.latency_max = -10000000 := by
  have h := c6_minmax_update [(PacketId.Icmp 1 2 3, ⟨0, 0⟩)] initStats
    (PacketId.Icmp 1 2 3) ⟨10, 0⟩ ⟨0, 0⟩ (by decide)
  refine ⟨?_, ?_⟩
  · rw [h.1]; decide
  · rw [h.2]; decide

/-- C7: Byte Filter contract: the empty constraint list accepts every frame;
a non-empty list accepts exactly when every constraint names an offset inside
the frame holding the expected byte (so an offset beyond the frame rejects);
and every frame shorter than the maximum constraint offset is rejected
regardless of its byte values. -/
theorem c7_byte_filter (bytes : Bytes) (filter : List (Nat × Nat)) :
    PcapReader.match_filter bytes [] = true ∧
    (filter ≠ [] → (PcapReader.match_filter bytes filter = true ↔
      ∀ p ∈ filter, p.1 < bytes.length ∧ bytes.getD p.1 0 = p.2)) ∧
    (filter ≠ [] → bytes.length < (filter.map Prod.fst).foldr max 0 →
      PcapReader.match_filter bytes filter = false) := by
  have hiff : filter ≠ [] → (PcapReader.match_filter bytes filter = true ↔
      ∀ p ∈ filter, p.1 < bytes.length ∧ bytes.getD p.1 0 = p.2) := by
    intro hne
    have hlen : ¬ filter.length = 0 := by
      simp [List.length_eq_zero]
      exact hne
    rw [PcapReader.match_filter, if_neg hlen]
    exact match_filter_go_iff bytes filter
  refine ⟨by simp [PcapReader.match_filter], hiff, ?_⟩
  intro hne hshort
  cases hmf : PcapReader.match_filter bytes filter with
  | false => rfl
  | true =>
    exfalso
    obtain ⟨n, hn, hk⟩ := exists_gt_of_lt_foldr_max _ _ hshort
    obtain ⟨p, hp, hfst⟩ := List.mem_map.mp hn
    have := ((hiff hne).mp hmf p hp).1
    omega

/-- Witness for C7: a two-byte frame is rejected by a filter whose only
constraint sits at offset 5. -/
theorem c7_byte_filter_witness : PcapReader.match_filter [1, 2] [(5, 0)] = false :=
  (c7_byte_filter [1, 2] [(5, 0)]).2.2 (by decide) (by decide)

/-- C8: skip-path exclusion: a frame that fails the Ethernet or IPv4 parse or
whose IPv4 protocol is neither TCP nor ICMP extracts no identity (skip), and
inserting such a record anywhere in either capture leaves the reader output
and the whole run, hence the Correlation Table and every hit, miss and total
counter, unchanged. -/
theorem c8_skip_exclusion (bytes : Bytes)
    (h : ethernetParse bytes = none ∨
         (∃ pl, ethernetParse bytes = some pl ∧ ipv4Parse pl = none) ∨
         (∃ pl l3, ethernetParse bytes = some pl ∧ ipv4Parse pl = some l3 ∧
            l3.protocol ≠ protocolTcp ∧ l3.protocol ≠ protocolIcmp)) :
    PacketId.new_from_bytes bytes = ExtractResult.skip ∧
    (∀ (filter : List (Nat × Nat)) (sec usec : Nat) (l1 l2 : List CaptureRecord),
       readPackets filter (l1 ++ ⟨bytes, sec, usec⟩ :: l2) = readPackets filter (l1 ++ l2)) ∧
    (∀ (filter : List (Nat × Nat)) (sec usec : Nat) (l1 l2 ins : List CaptureRecord),
       runMain filter (l1 ++ ⟨bytes, sec, usec⟩ :: l2) ins = runMain filter (l1 ++ l2) ins) ∧
    (∀ (filter : List (Nat × Nat)) (sec usec : Nat) (l1 l2 outs : List CaptureRecord),
       runMain filter outs (l1 ++ ⟨bytes, sec, usec⟩ :: l2) = runMain filter outs (l1 ++ l2)) := by
  have hskip : PacketId.new_from_bytes bytes = ExtractResult.skip := by
    rcases h with he | ⟨pl, he, hi⟩ | ⟨pl, l3, he, hi, h6, h1⟩
    · simp [PacketId.new_from_bytes, he]
    · simp [PacketId.new_from_bytes, he, hi]
    · simp [PacketId.new_from_bytes, he, hi, h6, h1]
  have hread : ∀ (filter : List (Nat × Nat)) (sec usec : Nat) (l1 l2 : List CaptureRecord),
      readPackets filter (l1 ++ ⟨bytes, sec, usec⟩ :: l2) = readPackets filter (l1 ++ l2) := by
    intro filter sec usec l1 l2
    induction l1 with
    | nil =>
      cases hf : PcapReader.match_filter bytes filter with
      | true => simp [readPackets, hf, hskip]
      | false => simp [readPackets, hf]
    | cons r l1 ih =>
      simp only [List.cons_append, readPackets, List.append_eq, ih]
  refine ⟨hskip, hread, ?_, ?_⟩
  · intro filter sec usec l1 l2 ins
    unfold runMain
    rw [hread filter sec usec l1 l2]
  · intro filter sec usec l1 l2 outs
    unfold runMain
    rw [hread filter sec usec l1 l2]

/-- Witness for C8: a UDP frame extracts no identity and dropping it from a
capture leaves the reader output unchanged. -/
theorem c8_skip_exclusion_witness :
    PacketId.new_from_bytes udpFrameBytes = ExtractResult.skip ∧
    readPackets [] [⟨udpFrameBytes, 0, 0⟩, ⟨icmpFrameBytes 0 0, 0, 7⟩] =
      readPackets [] [⟨icmpFrameBytes 0 0, 0, 7⟩] := by
  have hcase : ∃ pl l3, ethernetParse udpFrameBytes = some pl ∧ ipv4Parse pl = some l3 ∧
      l3.protocol ≠ protocolTcp ∧ l3.protocol ≠ protocolIcmp := by
    refine ⟨udpFrameBytes.drop 14,
      { source := 167772161, destination := 167772162, protocol := 17, payload := [] },
      ?_, ?_, ?_, ?_⟩ <;> decide
  have h := c8_skip_exclusion udpFrameBytes (Or.inr (Or.inr hcase))
  exact ⟨h.1, h.2.1 [] 0 0 [] [⟨icmpFrameBytes 0 0, 0, 7⟩]⟩

/-- C9: hard failure on an inconsistent transport header: a frame whose IPv4
protocol field declares TCP or ICMP but whose transport header fails to parse
makes identity extraction abort (the unwrap panic), and a run whose reader
reaches such a record fails with the panic instead of skipping it. -/
theorem c9_transport_hard_failure (bytes : Bytes) (l2_payload : Bytes) (l3 : Ipv4Info)
    (he : ethernetParse bytes = some l2_payload)
    (hi : ipv4Parse l2_payload = some l3)
    (h : (l3.protocol = protocolTcp ∧ tcpParse l3.payload = none) ∨
         (l3.protocol = protocolIcmp ∧ icmpParse l3.payload = none)) :
    PacketId.new_from_bytes bytes = ExtractResult.abort ∧
    ∀ (filter : List (Nat × Nat)) (sec usec : Nat) (rest : List CaptureRecord),
      PcapReader.match_filter bytes filter = true →
      readPackets filter (⟨bytes, sec, usec⟩ :: rest) = Except.error panicMsg := by
  have habort : PacketId.new_from_bytes bytes = ExtractResult.abort := by
    rcases h with ⟨hp, ht⟩ | ⟨hp, ht⟩
    · simp [PacketId.new_from_bytes, he, hi, hp, ht]
    · simp [PacketId.new_from_bytes, he, hi, hp, ht, protocolTcp, protocolIcmp]
  refine ⟨habort, ?_⟩
  intro filter sec usec rest hf
  simp [readPackets, hf, habort]

/-- Witness for C9: a frame declaring TCP with an empty IPv4 payload aborts
extraction and fails the run. -/
theorem c9_transport_hard_failure_witness :
    PacketId.new_from_bytes tcpTruncatedFrameBytes = ExtractResult.abort ∧
    readPackets [] [⟨tcpTruncatedFrameBytes, 0, 0⟩] = Except.error panicMsg := by
  have h := c9_transport_hard_failure tcpTruncatedFrameBytes (tcpTruncatedFrameBytes.drop 14)
    { source := 167772161, destination := 167772162, protocol := 6, payload := [] }
    (by decide) (by decide) (Or.inl ⟨by decide, by decide⟩)
  exact ⟨h.1, h.2 [] 0 0 [] (by decide)⟩

/-- C10: exactness of the timestamp difference: for u32 timestamp fields the
wrapped i64 evaluation equals the exact integer difference, that difference
is (sec1 * 1000000 + usec1) - (sec2 * 1000000 + usec2), and its magnitude
stays below 2 ^ 63, so no i64 overflow occurs. -/
theorem c10_diff_exact (t1 t2 : PacketTime)
    (h1 : t1.sec < 2 ^ 32) (h2 : t1.usec < 2 ^ 32) (h3 : t2.sec < 2 ^ 32) (h4 : t2.usec < 2 ^ 32) :
    PacketTime.diff_i64 t1 t2 = PacketTime.diff t1 t2 ∧
    PacketTime.diff t1 t2 =
      ((t1.sec : Int) * 1000000 + (t1.usec : Int))
        - ((t2.sec : Int) * 1000000 + (t2.usec : Int)) ∧
    |PacketTime.diff t1 t2| < 2 ^ 63 := by
  have ha : (t1.sec : Int) < 2 ^ 32 := by exact_mod_cast h1
  have hb : (t1.usec : Int) < 2 ^ 32 := by exact_mod_cast h2
  have hc : (t2.sec : Int) < 2 ^ 32 := by exact_mod_cast h3
  have hd : (t2.usec : Int) < 2 ^ 32 := by exact_mod_cast h4
  have ha0 : (0 : Int) ≤ (t1.sec : Int) := Int.natCast_nonneg _
  have hb0 : (0 : Int) ≤ (t1.usec : Int) := Int.natCast_nonneg _
  have hc0 : (0 : Int) ≤ (t2.sec : Int) := Int.natCast_nonneg _
  have hd0 : (0 : Int) ≤ (t2.usec : Int) := Int.natCast_nonneg _
  refine ⟨?_, by unfold PacketTime.diff; ring, ?_⟩
  · unfold PacketTime.diff_i64 PacketTime.diff
    rw [wrap64_eq_self ((t1.sec : Int) * 1000000) (by omega) (by omega)]
    rw [wrap64_eq_self ((t2.sec : Int) * 1000000) (by omega) (by omega)]
    rw [wrap64_eq_self ((t1.sec : Int) * 1000000 + (t1.usec : Int)) (by omega) (by omega)]
    rw [wrap64_eq_self ((t1.sec : Int) * 1000000 + (t1.usec : Int) - (t2.sec : Int) * 1000000)
      (by omega) (by omega)]
    rw [wrap64_eq_self ((t1.sec : Int) * 1000000 + (t1.usec : Int) - (t2.sec : Int) * 1000000
      - (t2.usec : Int)) (by omega) (by omega)]
  · rw [abs_lt]; unfold PacketTime.diff; constructor <;> omega

/-- Witness for C10: the concrete timestamps of the sign-convention example
satisfy the bounds and the wrapped and exact differences agree. -/
theorem c10_diff_exact_witness :
    PacketTime.diff_i64 ⟨10, 500000⟩ ⟨10, 0⟩ = PacketTime.diff ⟨10, 500000⟩ ⟨10, 0⟩ ∧
    PacketTime.diff ⟨10, 500000⟩ ⟨10, 0⟩ =
      (((10 : Nat) : Int) * 1000000 + ((500000 : Nat) : Int))
        - (((10 : Nat) : Int) * 1000000 + ((0 : Nat) : Int)) ∧
    |PacketTime.diff ⟨10, 500000⟩ ⟨10, 0⟩| < 2 ^ 63 :=
  c10_diff_exact ⟨10, 500000⟩ ⟨10, 0⟩ (by decide) (by decide) (by decide) (by decide)

end LatencyTool
